import Mathlib

set_option maxHeartbeats 1000000

/-!
Verification development for the directus-sync repository.

The development shallowly embeds:
* the data-restore convergence loop of the restore entry point
  (`src/unnamed/part_000`, function `run`);
* the schema snapshot client (`src/cli/src/lib/services/snapshot/snapshot-client.ts`);
* the HTTP input-validation helper (`src/unnamed/part_002`, `validateInput`).

Collection restorer semantics (dependency resolution) and the JSON directory
reader `loadJsonFilesRecursively` are not part of the given sources; they are
modelled from the specification where needed, and marked as such.
-/

namespace DSync

/-! ## Data-restore driver (src/unnamed/part_000, `run`)

A collection restorer exposes `cleanUp` and `restore`; `restore` reports
whether a retry is needed.  The remote instance together with any per-restorer
state is abstracted into a single state `σ` threaded through the calls, since
the source executes everything sequentially. -/

/-- A collection restorer as used by the restore entry point: a `cleanUp` step
and a `restore` step returning the new state and the retry flag. -/
structure Restorer (σ : Type) where
  cleanUp : σ → σ
  restore : σ → σ × Bool

/-- The clean-up phase of `run`: `for (const collection of collections) await collection.cleanUp()`. -/
def cleanUpAll {σ : Type} : List (Restorer σ) → σ → σ
  | [], s => s
  | r :: rest, s => cleanUpAll rest (r.cleanUp s)

/-- One full pass of the `while` loop body of `run`: call `restore()` on every
restorer in list order, and report whether any of them requested a retry
(the source sets `stop = false` when `retry` is true). -/
def restorePass {σ : Type} : List (Restorer σ) → σ → σ × Bool
  | [], s => (s, false)
  | r :: rest, s =>
      let step := r.restore s
      let rec' := restorePass rest step.1
      (rec'.1, step.2 || rec'.2)

/-- The `while (!stop)` loop of `run`, embedded with explicit fuel: `none`
means the fuel was exhausted while the loop still wanted another pass.  The
source loop has no iteration cap, so its termination is exactly
`∃ fuel, (runLoop rs fuel s).isSome`. -/
def runLoop {σ : Type} (rs : List (Restorer σ)) : Nat → σ → Option σ
  | 0, _ => none
  | fuel + 1, s =>
      let p := restorePass rs s
      if p.2 then runLoop rs fuel p.1 else some p.1

/-- The whole data-restore part of `run`: clean-up phase followed by the
convergence loop. -/
def runDriver {σ : Type} (rs : List (Restorer σ)) (fuel : Nat) (s : σ) : Option σ :=
  runLoop rs fuel (cleanUpAll rs s)

/-- Termination of the (uncapped) source loop on a given run: some finite
number of passes suffices. -/
def TerminatesOn {σ : Type} (rs : List (Restorer σ)) (s : σ) : Prop :=
  ∃ fuel, (runDriver rs fuel s).isSome

/-- The state reached after `n` full restore passes. -/
def passIter {σ : Type} (rs : List (Restorer σ)) (s : σ) : Nat → σ
  | 0 => s
  | n + 1 => (restorePass rs (passIter rs s n)).1

/-! ## Spec-modelled collection restorers

Modelled from the spec: the concrete collection restorers (roles, users, ...)
are not part of the given sources; §4.2 of the spec describes their `restore`
step.  A record carries a stable identifier and dependency references; a
restore call attempts every not-yet-applied record, applies it when all its
dependency references resolve against the identifiers already known to exist,
and reports a retry when at least one record was skipped.  Identifiers are
abstracted as naturals and the remote state as the list of applied
identifiers. -/

/-- A record of a collection dump: stable identifier plus dependency
references (identifiers of records it points at). -/
structure DRecord where
  rid : Nat
  deps : List Nat
deriving DecidableEq, Repr

/-- The identifiers of a collection's records. -/
def idsOf (recs : List DRecord) : List Nat := recs.map (·.rid)

/-- Modelled from the spec (§4.2): one `restore()` call of a collection
restorer.  `ap` is the set (as a list) of identifiers already applied.  Each
record is skipped when already applied, applied when all its dependency
references are already applied, and deferred (retry flag) otherwise. -/
def restoreRecords : List DRecord → List Nat → List Nat × Bool
  | [], ap => (ap, false)
  | r :: rest, ap =>
      if r.rid ∈ ap then restoreRecords rest ap
      else if r.deps.all (fun d => decide (d ∈ ap)) then restoreRecords rest (r.rid :: ap)
      else ((restoreRecords rest ap).1, true)

/-- Modelled from the spec: the collection restorer built from a collection
dump.  Its clean-up is a no-op on a clean state (§4.2: `cleanUp` must not
error on a clean state); dependency resolution is `restoreRecords`. -/
def mkRestorer (recs : List DRecord) : Restorer (List Nat) where
  cleanUp := fun s => s
  restore := restoreRecords recs

/-- Chain-shaped dependencies: each collection's records reference only
identifiers of the previous collection (`prev` holds the identifiers
available to the first collection). -/
def ChainFrom (prev : List Nat) : List (List DRecord) → Prop
  | [] => True
  | c :: rest => (∀ r ∈ c, ∀ d ∈ r.deps, d ∈ prev) ∧ ChainFrom (idsOf c) rest

/-- A dependency chain A→B→C...: the first collection references nothing. -/
def IsChain (cols : List (List DRecord)) : Prop := ChainFrom [] cols

instance instDecChainFrom : (prev : List Nat) → (cols : List (List DRecord)) →
    Decidable (ChainFrom prev cols)
  | _, [] => isTrue trivial
  | prev, c :: rest =>
      @instDecidableAnd _ _ (List.decidableBAll _ c) (instDecChainFrom (idsOf c) rest)

instance instDecIsChain (cols : List (List DRecord)) : Decidable (IsChain cols) :=
  instDecChainFrom [] cols

/-- All identifiers of the first `k` collections of a chain. -/
def idsUpTo (cols : List (List DRecord)) (k : Nat) : List Nat :=
  (cols.take k).flatMap idsOf

/-! ## Snapshot client (src/cli/src/lib/services/snapshot/snapshot-client.ts)

The schema snapshot is `{info..., collections, fields, relations}`.  Names are
abstracted as naturals (standing for strings with their lexicographic order);
the payload of each collection/field/relation beyond its identifying keys is
abstracted as a natural `body`.  The dump directory is modelled as a list of
(path, content) files, a path being one of the file names the client writes. -/

/-- A collection entry of a schema snapshot; keyed by `collection`. -/
structure Collection where
  collection : Nat
  body : Nat
deriving DecidableEq, Repr

/-- A field entry of a schema snapshot; keyed by (`collection`, `field`). -/
structure Field where
  collection : Nat
  field : Nat
  body : Nat
deriving DecidableEq, Repr

/-- A relation entry of a schema snapshot; keyed by (`collection`, `field`). -/
structure Relation where
  collection : Nat
  field : Nat
  body : Nat
deriving DecidableEq, Repr

/-- A schema snapshot `{info..., collections, fields, relations}`; the info
part is opaque. -/
structure Snapshot where
  info : Nat
  collections : List Collection
  fields : List Field
  relations : List Relation
deriving DecidableEq, Repr

/-- The file paths the snapshot client writes under `dumpPath`:
`snapshot.json`, `info.json`, `collections/<name>.json`,
`fields/<collection>/<field>.json`, `relations/<collection>/<field>.json`. -/
inductive FKey where
  | snap
  | info
  | coll (name : Nat)
  | fld (c f : Nat)
  | rel (c f : Nat)
deriving DecidableEq, Repr

/-- The JSON content of one dump file. -/
inductive FContent where
  | cSnap (s : Snapshot)
  | cInfo (i : Nat)
  | cColl (c : Collection)
  | cFld (f : Field)
  | cRel (r : Relation)
deriving DecidableEq, Repr

/-- The dump directory: the files it holds, as (path, content) pairs. -/
abbrev FS := List (FKey × FContent)

/-- `writeJsonSync`: (over)write one file. -/
def writeJson (fs : FS) (p : FKey) (c : FContent) : FS :=
  fs.filter (fun e => decide (e.1 ≠ p)) ++ [(p, c)]

/-- Read one file of the dump directory, if present. -/
def fsLookup (fs : FS) (p : FKey) : Option FContent :=
  (fs.find? (fun e => decide (e.1 = p))).map (·.2)

namespace SnapshotClient

/-- `decomposeData`: split a snapshot into one file per entry, `info.json`
first, then collections, fields and relations in snapshot order. -/
def decomposeData (data : Snapshot) : List (FKey × FContent) :=
  (FKey.info, FContent.cInfo data.info) ::
    (data.collections.map (fun c => (FKey.coll c.collection, FContent.cColl c)) ++
      data.fields.map (fun f => (FKey.fld f.collection f.field, FContent.cFld f)) ++
      data.relations.map (fun r => (FKey.rel r.collection r.field, FContent.cRel r)))

/-- `saveData`: clean the dump directory (`removeSync` + `mkdirpSync`), then
write either the decomposed files (split-files mode) or the single
`snapshot.json`; returns the new directory and the number of saved files. -/
def saveData (old : FS) (splitFiles : Bool) (data : Snapshot) : FS × Nat :=
  let fs0 : FS := []
  if splitFiles then
    let files := decomposeData data
    (files.foldl (fun acc f => writeJson acc f.1 f.2) fs0, files.length)
  else
    (writeJson fs0 FKey.snap (FContent.cSnap data), 1)

/-- The keys of the collection files present in the dump directory. -/
def collKeys (fs : FS) : List Nat :=
  fs.filterMap (fun e => match e.1 with | FKey.coll n => some n | _ => none)

/-- The (collection, field) keys of the field files present in the dump
directory. -/
def fldKeys (fs : FS) : List (Nat × Nat) :=
  fs.filterMap (fun e => match e.1 with | FKey.fld c f => some (c, f) | _ => none)

/-- The (collection, field) keys of the relation files present in the dump
directory. -/
def relKeys (fs : FS) : List (Nat × Nat) :=
  fs.filterMap (fun e => match e.1 with | FKey.rel c f => some (c, f) | _ => none)

/-- Modelled from the spec: the directory listing a recursive JSON loader
sees — each distinct name once, in ascending order. -/
def sortKeys (l : List Nat) : List Nat := List.insertionSort (· ≤ ·) l.dedup

/-- Modelled from the spec: `loadJsonFilesRecursively` over a two-level
directory tree `<dir>/<c>/<f>.json`: subdirectories in ascending order, files
of each subdirectory in ascending order. -/
def loadPairDir {α : Type} (keys : List (Nat × Nat)) (get : Nat → Nat → Option α) : List α :=
  (sortKeys (keys.map Prod.fst)).flatMap (fun c =>
    (sortKeys ((keys.filter (fun k => decide (k.1 = c))).map Prod.snd)).filterMap (get c))

/-- Modelled from the spec: `loadJsonFilesRecursively` over the
`collections` directory. -/
def loadCollectionsDir (fs : FS) : List Collection :=
  (sortKeys (collKeys fs)).filterMap (fun n =>
    match fsLookup fs (FKey.coll n) with
    | some (FContent.cColl c) => some c
    | _ => none)

/-- Load the `fields` directory tree. -/
def loadFieldsDir (fs : FS) : List Field :=
  loadPairDir (fldKeys fs) (fun c f =>
    match fsLookup fs (FKey.fld c f) with
    | some (FContent.cFld x) => some x
    | _ => none)

/-- Load the `relations` directory tree. -/
def loadRelationsDir (fs : FS) : List Relation :=
  loadPairDir (relKeys fs) (fun c f =>
    match fsLookup fs (FKey.rel c f) with
    | some (FContent.cRel x) => some x
    | _ => none)

/-- `loadData`: reload the snapshot from the dump directory — either
reassemble the decomposed tree (split-files mode) or read `snapshot.json`.
`none` models the exception thrown when a required file is missing or
malformed. -/
def loadData (fs : FS) (splitFiles : Bool) : Option Snapshot :=
  if splitFiles then
    match fsLookup fs FKey.info with
    | some (FContent.cInfo i) =>
        some { info := i, collections := loadCollectionsDir fs,
               fields := loadFieldsDir fs, relations := loadRelationsDir fs }
    | _ => none
  else
    match fsLookup fs FKey.snap with
    | some (FContent.cSnap s) => some s
    | _ => none

/-- `diffSnapshot`: load the dumped snapshot and ask the remote instance for
the diff; the remote diff endpoint is abstracted as a function of the remote
state, returning `none` when there is no difference.  The outer `none` models
the load failure. -/
def diffSnapshot {ρ δ : Type} (diffReq : ρ → Snapshot → Option δ) (r : ρ)
    (fs : FS) (splitFiles : Bool) : Option (Option δ) :=
  (loadData fs splitFiles).map (diffReq r)

/-- `restore` (schema sense): compute the diff and, when it is defined, apply
it to the remote instance.  Returns the new remote state and the list of
apply requests issued (empty or a single diff). -/
def restore {ρ δ : Type} (diffReq : ρ → Snapshot → Option δ)
    (applyReq : ρ → δ → ρ) (r : ρ) (fs : FS) (splitFiles : Bool) :
    Option (ρ × List δ) :=
  match diffSnapshot diffReq r fs splitFiles with
  | none => none
  | some none => some (r, [])
  | some (some d) => some (applyReq r d, [d])

/-- The set of paths `dump()` writes for a given snapshot and mode. -/
def dumpPaths (splitFiles : Bool) (data : Snapshot) : List FKey :=
  if splitFiles then (decomposeData data).map Prod.fst else [FKey.snap]

end SnapshotClient

/-- Lexicographic order on the (collection, field) file keys: the order the
directory tree imposes on `<dir>/<c>/<f>.json` paths. -/
def lexLt (a b : Nat × Nat) : Prop := a.1 < b.1 ∨ (a.1 = b.1 ∧ a.2 < b.2)

instance instDecLexLt : DecidableRel lexLt := fun a b => by
  unfold lexLt; exact inferInstance

/-- The snapshot's collections are strictly ascending by name. -/
def CollSorted (s : Snapshot) : Prop :=
  List.Sorted (· < ·) (s.collections.map (·.collection))

/-- The snapshot's fields are strictly ascending by (collection, field). -/
def FieldSorted (s : Snapshot) : Prop :=
  List.Sorted lexLt (s.fields.map (fun f => (f.collection, f.field)))

/-- The snapshot's relations are strictly ascending by (collection, field). -/
def RelSorted (s : Snapshot) : Prop :=
  List.Sorted lexLt (s.relations.map (fun r => (r.collection, r.field)))

instance instDecCollSorted (s : Snapshot) : Decidable (CollSorted s) :=
  inferInstanceAs (Decidable (List.Sorted _ _))

instance instDecFieldSorted (s : Snapshot) : Decidable (FieldSorted s) :=
  inferInstanceAs (Decidable (List.Sorted _ _))

instance instDecRelSorted (s : Snapshot) : Decidable (RelSorted s) :=
  inferInstanceAs (Decidable (List.Sorted _ _))

/-! ## Trace-instrumented driver

The same restore entry point (`src/unnamed/part_000`, `run`), instrumented
with the sequence of `cleanUp`/`restore` calls it performs and with restore
steps that may raise (`Except`): the `await collection.restore()` of the
source propagates a rejection out of `run` to the top-level `.catch`
handler. -/

/-- One observable call of the restore entry point: `cleanUp()` or
`restore()` on the restorer at a given position of the collection list. -/
inductive REvent where
  | clean (i : Nat)
  | restore (i : Nat)
deriving DecidableEq, Repr

/-- A collection restorer whose `restore` step may raise an error `ε`. -/
structure CRestorer (ε σ : Type) where
  cleanUp : σ → σ
  restore : σ → Except ε (σ × Bool)

/-- The clean-up phase with its call trace (`i` is the position of the first
restorer of the list in the full collection list). -/
def cleanPhase {ε σ : Type} : List (CRestorer ε σ) → Nat → σ → List REvent × σ
  | [], _, s => ([], s)
  | r :: rest, i, s =>
      let rec' := cleanPhase rest (i + 1) (r.cleanUp s)
      (REvent.clean i :: rec'.1, rec'.2)

/-- One pass of the restore loop with its call trace: `restore()` on every
restorer in order; a raised error ends the pass at once and propagates. -/
def passPhase {ε σ : Type} : List (CRestorer ε σ) → Nat → σ → List REvent × Except ε (σ × Bool)
  | [], _, s => ([], Except.ok (s, false))
  | r :: rest, i, s =>
      match r.restore s with
      | Except.error e => ([REvent.restore i], Except.error e)
      | Except.ok (s', retry) =>
          let rec' := passPhase rest (i + 1) s'
          (REvent.restore i :: rec'.1,
            match rec'.2 with
            | Except.error e => Except.error e
            | Except.ok (s'', retryRest) => Except.ok (s'', retry || retryRest))

/-- The `while (!stop)` loop with its call trace, with fuel; `Except.ok none`
means the fuel ran out while the loop still wanted another pass, and an error
raised inside any pass aborts the loop and propagates. -/
def loopPhase {ε σ : Type} (rs : List (CRestorer ε σ)) : Nat → σ → List REvent × Except ε (Option σ)
  | 0, _ => ([], Except.ok none)
  | fuel + 1, s =>
      match passPhase rs 0 s with
      | (evs, Except.error e) => (evs, Except.error e)
      | (evs, Except.ok (s', retry)) =>
          if retry then
            let rec' := loopPhase rs fuel s'
            (evs ++ rec'.1, rec'.2)
          else (evs, Except.ok (some s'))

/-- The data-restore part of `run` with its call trace: clean-up phase then
the convergence loop. -/
def runTrace {ε σ : Type} (rs : List (CRestorer ε σ)) (fuel : Nat) (s : σ) :
    List REvent × Except ε (Option σ) :=
  let c := cleanPhase rs 0 s
  let l := loopPhase rs fuel c.2
  (c.1 ++ l.1, l.2)

/-- The state after one successful pass that requested a retry; `none` when
the pass raised or did not request a retry. -/
def passOkState {ε σ : Type} (rs : List (CRestorer ε σ)) (s : σ) : Option σ :=
  match (passPhase rs 0 s).2 with
  | Except.ok (s', true) => some s'
  | _ => none

/-- The state after `k` successful retry-requesting passes from `s`. -/
def okStates {ε σ : Type} (rs : List (CRestorer ε σ)) : Nat → σ → Option σ
  | 0, s => some s
  | k + 1, s =>
      match passOkState rs s with
      | some s' => okStates rs k s'
      | none => none

/-- A restorer whose `restore()` raises at once (a non-dependency error,
abstracted as the value 7). -/
def failRestorer : CRestorer Nat Unit where
  cleanUp := fun s => s
  restore := fun _ => Except.error 7

/-! ## HTTP input validation (src/unnamed/part_002, `validateInput`) -/

/-- One issue of a failed Zod parse: a path and a message. -/
structure ZodIssue where
  path : List String
  message : String
deriving DecidableEq, Repr

/-- What `zodSchema.parse` can throw: a `ZodError` carrying its issues, or
any other error carrying its message. -/
inductive ParseErr where
  | zod (issues : List ZodIssue)
  | other (message : String)
deriving DecidableEq, Repr

/-- An HTTP error as built by `createError(statusCode, message)`. -/
structure HttpError where
  statusCode : Nat
  message : String
deriving DecidableEq, Repr

/-- The text of one issue: `[<path joined by ,>] <message>`. -/
def issueText (i : ZodIssue) : String :=
  "[" ++ String.intercalate "," i.path ++ "] " ++ i.message

/-- The message `validateInput` builds from a parse failure: the issue texts
joined by `. ` for a `ZodError`, the error's own message otherwise. -/
def errMessage : ParseErr → String
  | ParseErr.zod issues => String.intercalate ". " (issues.map issueText)
  | ParseErr.other m => m

/-- `validateInput`: return the schema-parsed value, or turn any parse
failure into an HTTP 400 error with the aggregated message.  The Zod schema
is abstracted as a fallible parse function. -/
def validateInput {α β : Type} (parse : α → Except ParseErr β) (params : α) :
    Except HttpError β :=
  match parse params with
  | Except.ok v => Except.ok v
  | Except.error e => Except.error ⟨400, errMessage e⟩

/-! # Theorems -/

/-- Claim C10: `validateInput` either returns the schema-parsed value, or
throws an HTTP error with statusCode 400 whose message aggregates the
validation issues; it never returns a value that failed validation and no
non-400 error escapes a parse failure. -/
theorem c10_validateInput_total {α β : Type} (parse : α → Except ParseErr β) (params : α) :
    (∃ v, parse params = Except.ok v ∧ validateInput parse params = Except.ok v) ∨
    (∃ e, parse params = Except.error e ∧
      validateInput parse params = Except.error ⟨400, errMessage e⟩) := by
  cases h : parse params with
  | ok v => exact Or.inl ⟨v, rfl, by simp [validateInput, h]⟩
  | error e => exact Or.inr ⟨e, rfl, by simp [validateInput, h]⟩

/-- Claim C7: the schema `restore()` computes the diff and sends an apply
request if and only if the diff is defined; when `diffSnapshot()` reports no
difference, no apply call is made and the remote state is untouched. -/
theorem c7_restore_iff_diff {ρ δ : Type} (diffReq : ρ → Snapshot → Option δ)
    (applyReq : ρ → δ → ρ) (r : ρ) (fs : FS) (split : Bool) (snap : Snapshot)
    (hload : SnapshotClient.loadData fs split = some snap) :
    (diffReq r snap = none →
      SnapshotClient.restore diffReq applyReq r fs split = some (r, [])) ∧
    (∀ d, diffReq r snap = some d →
      SnapshotClient.restore diffReq applyReq r fs split = some (applyReq r d, [d])) := by
  unfold SnapshotClient.restore SnapshotClient.diffSnapshot
  rw [hload]
  constructor
  · intro h; simp [h]
  · intro d h; simp [h]

/-- Witness for C7 at a concrete snapshot, dump and remote. -/
theorem c7_restore_iff_diff_witness :
    SnapshotClient.loadData
        (SnapshotClient.saveData [] false (Snapshot.mk 0 [] [] [])).1 false =
      some (Snapshot.mk 0 [] [] []) ∧
    ((fun (_ : Nat) (_ : Snapshot) => (none : Option Nat)) 7 (Snapshot.mk 0 [] [] []) = none →
      SnapshotClient.restore (fun (_ : Nat) (_ : Snapshot) => (none : Option Nat))
          (fun r _ => r) 7 (SnapshotClient.saveData [] false (Snapshot.mk 0 [] [] [])).1 false =
        some (7, [])) := by
  refine ⟨rfl, ?_⟩
  exact (c7_restore_iff_diff (fun _ _ => none) (fun r _ => r) 7
    (SnapshotClient.saveData [] false (Snapshot.mk 0 [] [] [])).1 false
    (Snapshot.mk 0 [] [] []) rfl).1

/-- Claim C8: `dump()` writes either the single `snapshot.json`, or in split
mode exactly `info.json` plus one `collections/<name>.json` per collection,
one `fields/<collection>/<field>.json` per field and one
`relations/<collection>/<field>.json` per relation, and reports 1 resp.
1 + collections + fields + relations saved files. -/
theorem c8_dump_layout (old : FS) (data : Snapshot) :
    (SnapshotClient.saveData old true data).2 =
      1 + data.collections.length + data.fields.length + data.relations.length ∧
    (SnapshotClient.saveData old false data).2 = 1 ∧
    (SnapshotClient.decomposeData data).map Prod.fst =
      FKey.info :: (data.collections.map (fun c => FKey.coll c.collection) ++
        data.fields.map (fun f => FKey.fld f.collection f.field) ++
        data.relations.map (fun r => FKey.rel r.collection r.field)) ∧
    (SnapshotClient.saveData old false data).1 = [(FKey.snap, FContent.cSnap data)] := by
  refine ⟨?_, rfl, ?_, rfl⟩
  · simp [SnapshotClient.saveData, SnapshotClient.decomposeData]
    omega
  · simp only [SnapshotClient.decomposeData, List.map_cons, List.map_append, List.map_map]
    rfl

theorem fsLookup_isSome_iff (fs : FS) (p : FKey) :
    (fsLookup fs p).isSome ↔ p ∈ fs.map Prod.fst := by
  constructor
  · intro h
    cases hf : List.find? (fun e => decide (e.1 = p)) fs with
    | none => rw [fsLookup, hf] at h; simp at h
    | some e =>
        have hmem := List.mem_of_find?_eq_some hf
        have hp := List.find?_some hf
        simp only [decide_eq_true_eq] at hp
        exact List.mem_map.mpr ⟨e, hmem, hp⟩
  · intro h
    obtain ⟨e, he, rfl⟩ := List.mem_map.mp h
    rw [fsLookup]
    cases hf : List.find? (fun x => decide (x.1 = e.1)) fs with
    | none =>
        have := List.find?_eq_none.mp hf e he
        simp at this
    | some x => simp

theorem writeJson_keys (fs : FS) (p : FKey) (c : FContent) (q : FKey) :
    q ∈ (writeJson fs p c).map Prod.fst ↔ q = p ∨ q ∈ fs.map Prod.fst := by
  simp only [writeJson, List.map_append, List.mem_append, List.mem_map,
    List.mem_filter, List.map_cons, List.map_nil, List.mem_singleton,
    decide_eq_true_eq]
  constructor
  · rintro (⟨e, ⟨he, _⟩, h⟩ | h)
    · exact Or.inr ⟨e, he, h⟩
    · exact Or.inl h
  · rintro (h | ⟨e, he, h⟩)
    · exact Or.inr h
    · by_cases hp : e.1 = p
      · exact Or.inr (h ▸ hp)
      · exact Or.inl ⟨e, ⟨he, hp⟩, h⟩

theorem foldl_writeJson_keys (files : List (FKey × FContent)) :
    ∀ (fs : FS) (q : FKey),
      q ∈ ((files.foldl (fun acc f => writeJson acc f.1 f.2) fs).map Prod.fst) ↔
        q ∈ fs.map Prod.fst ∨ q ∈ files.map Prod.fst := by
  induction files with
  | nil => intro fs q; simp
  | cons f files ih =>
      intro fs q
      simp only [List.foldl_cons, ih, writeJson_keys, List.map_cons, List.mem_cons]
      tauto

/-- Claim C9: every `dump()` deletes the dump directory recursively and
recreates it before writing, so the previous directory content is irrelevant
and the resulting directory holds exactly the files of the current
snapshot. -/
theorem c9_dump_cleans (old other : FS) (split : Bool) (data : Snapshot) :
    (SnapshotClient.saveData old split data).1 =
      (SnapshotClient.saveData other split data).1 ∧
    (∀ p : FKey, (fsLookup (SnapshotClient.saveData old split data).1 p).isSome ↔
      p ∈ SnapshotClient.dumpPaths split data) := by
  refine ⟨rfl, fun p => ?_⟩
  cases split with
  | true =>
      have h1 : (SnapshotClient.saveData old true data).1 =
          (SnapshotClient.decomposeData data).foldl (fun acc f => writeJson acc f.1 f.2) [] := rfl
      rw [h1, fsLookup_isSome_iff, foldl_writeJson_keys]
      simp [SnapshotClient.dumpPaths]
  | false =>
      simp [SnapshotClient.saveData, SnapshotClient.dumpPaths,
        fsLookup_isSome_iff, writeJson]

/-- Claim C3 (generic over the restorers): when every collection restorer
returns `false` on its first `restore()` call, the driver performs exactly
one restore pass and stops successfully with the state of that pass,
whatever the fuel. -/
theorem c3_one_pass {σ : Type} (rs : List (Restorer σ)) (s : σ) (fuel : Nat)
    (h : (restorePass rs (cleanUpAll rs s)).2 = false) :
    runDriver rs (fuel + 1) s = some (restorePass rs (cleanUpAll rs s)).1 := by
  simp [runDriver, runLoop, h]

/-- Witness for C3: one collection with a single dependency-free record. -/
theorem c3_one_pass_witness :
    (restorePass [mkRestorer [DRecord.mk 5 []]]
        (cleanUpAll [mkRestorer [DRecord.mk 5 []]] [])).2 = false ∧
    runDriver [mkRestorer [DRecord.mk 5 []]] 1 [] =
      some (restorePass [mkRestorer [DRecord.mk 5 []]]
        (cleanUpAll [mkRestorer [DRecord.mk 5 []]] [])).1 :=
  ⟨rfl, c3_one_pass [mkRestorer [DRecord.mk 5 []]] [] 0 rfl⟩

/-- Claim C1: the source loop has no iteration cap, so a circular dependency
between two collections (each record referencing the other) makes the driver
loop forever — no fuel makes the run finish. -/
theorem c1_no_iteration_cap :
    ¬ TerminatesOn [mkRestorer [DRecord.mk 0 [1]], mkRestorer [DRecord.mk 1 [0]]] [] := by
  rintro ⟨fuel, h⟩
  have key : ∀ n, runLoop [mkRestorer [DRecord.mk 0 [1]], mkRestorer [DRecord.mk 1 [0]]] n [] = none := by
    intro n
    induction n with
    | zero => rfl
    | succ n ih =>
        have hpass : restorePass [mkRestorer [DRecord.mk 0 [1]], mkRestorer [DRecord.mk 1 [0]]] [] =
            ([], true) := rfl
        simp [runLoop, hpass, ih]
  have hclean : cleanUpAll [mkRestorer [DRecord.mk 0 [1]], mkRestorer [DRecord.mk 1 [0]]]
      ([] : List Nat) = [] := rfl
  rw [runDriver, hclean, key fuel] at h
  simp at h

theorem cleanPhase_trace {ε σ : Type} :
    ∀ (rs : List (CRestorer ε σ)) (i : Nat) (s : σ),
      (cleanPhase rs i s).1 = (List.range' i rs.length).map REvent.clean := by
  intro rs
  induction rs with
  | nil => intro i s; rfl
  | cons r rest ih =>
      intro i s
      simp [cleanPhase, ih, List.range'_succ]

theorem passPhase_cases {ε σ : Type} :
    ∀ (rs : List (CRestorer ε σ)) (i : Nat) (s : σ),
      (∃ s' b, (passPhase rs i s).2 = Except.ok (s', b) ∧
        (passPhase rs i s).1 = (List.range' i rs.length).map REvent.restore) ∨
      (∃ e j, j < rs.length ∧ (passPhase rs i s).2 = Except.error e ∧
        (passPhase rs i s).1 = (List.range' i (j + 1)).map REvent.restore) := by
  intro rs
  induction rs with
  | nil => intro i s; exact Or.inl ⟨s, false, rfl, by simp [passPhase]⟩
  | cons r rest ih =>
      intro i s
      cases hr : r.restore s with
      | error e =>
          refine Or.inr ⟨e, 0, Nat.succ_pos _, ?_, ?_⟩ <;>
            simp [passPhase, hr, List.range'_succ]
      | ok p =>
          obtain ⟨s', retry⟩ := p
          rcases ih (i + 1) s' with ⟨s'', b, h2, h1⟩ | ⟨e, j, hj, h2, h1⟩
          · refine Or.inl ⟨s'', retry || b, ?_, ?_⟩
            · simp [passPhase, hr, h2]
            · simp [passPhase, hr, h1, List.range'_succ]
          · refine Or.inr ⟨e, j + 1, by simp only [List.length_cons]; omega, ?_, ?_⟩
            · simp [passPhase, hr, h2]
            · simp [passPhase, hr, h1, List.range'_succ]

theorem loopPhase_trace {ε σ : Type} (rs : List (CRestorer ε σ)) :
    ∀ (fuel : Nat) (s : σ), ∃ k j, j ≤ rs.length ∧
      (loopPhase rs fuel s).1 =
        (List.replicate k ((List.range' 0 rs.length).map REvent.restore)).flatten ++
          (List.range' 0 j).map REvent.restore := by
  intro fuel
  induction fuel with
  | zero => intro s; exact ⟨0, 0, Nat.zero_le _, by simp [loopPhase]⟩
  | succ fuel ih =>
      intro s
      rcases passPhase_cases rs 0 s with ⟨s', b, h2, h1⟩ | ⟨e, j, hj, h2, h1⟩
      · have hp : passPhase rs 0 s =
            ((List.range' 0 rs.length).map REvent.restore, Except.ok (s', b)) := by
          rw [← h1, ← h2]
        cases b with
        | false => exact ⟨1, 0, Nat.zero_le _, by simp [loopPhase, hp]⟩
        | true =>
            obtain ⟨k, j, hj, htr⟩ := ih s'
            exact ⟨k + 1, j, hj,
              by simp [loopPhase, hp, htr, List.replicate_succ]⟩
      · have hp : passPhase rs 0 s =
            ((List.range' 0 (j + 1)).map REvent.restore, Except.error e) := by
          rw [← h1, ← h2]
        exact ⟨0, j + 1, hj, by simp [loopPhase, hp]⟩

/-- Claim C5: in every run, the call trace is the clean-up calls — one per
restorer, in declaration order — followed by some number of complete restore
passes in the same order, possibly ending in an order-respecting partial
pass (cut short by an error or by fuel): `cleanUp()` runs exactly once per
restorer, strictly before any `restore()`, and every pass visits the
restorers in the fixed declaration order. -/
theorem c5_trace_shape {ε σ : Type} (rs : List (CRestorer ε σ)) (fuel : Nat) (s : σ) :
    ∃ k j, j ≤ rs.length ∧
      (runTrace rs fuel s).1 =
        (List.range rs.length).map REvent.clean ++
          ((List.replicate k ((List.range rs.length).map REvent.restore)).flatten ++
            (List.range j).map REvent.restore) := by
  obtain ⟨k, j, hj, htr⟩ := loopPhase_trace rs fuel (cleanPhase rs 0 s).2
  exact ⟨k, j, hj, by simp [runTrace, cleanPhase_trace, htr, List.range_eq_range']⟩

theorem loopPhase_error {ε σ : Type} (rs : List (CRestorer ε σ)) (e : ε) :
    ∀ (k fuel : Nat) (s sk : σ),
      okStates rs k s = some sk →
      (passPhase rs 0 sk).2 = Except.error e →
      k < fuel →
      loopPhase rs fuel s =
        ((List.replicate k ((List.range' 0 rs.length).map REvent.restore)).flatten ++
          (passPhase rs 0 sk).1, Except.error e) := by
  intro k
  induction k with
  | zero =>
      intro fuel s sk hok herr hfuel
      have hs : s = sk := by simpa [okStates] using hok
      subst hs
      obtain ⟨fuel, rfl⟩ : ∃ f, fuel = f + 1 := ⟨fuel - 1, by omega⟩
      rcases hps : passPhase rs 0 s with ⟨tr, res⟩
      rw [hps] at herr
      simp only at herr
      subst herr
      simp [loopPhase, hps]
  | succ k ih =>
      intro fuel s sk hok herr hfuel
      cases hpo : passOkState rs s with
      | none => rw [okStates, hpo] at hok; cases hok
      | some s1 =>
          rw [okStates, hpo] at hok
          have h2 : (passPhase rs 0 s).2 = Except.ok (s1, true) := by
            unfold passOkState at hpo
            split at hpo
            · rename_i s' heq
              cases hpo
              exact heq
            · cases hpo
          rcases passPhase_cases rs 0 s with ⟨s', b, hc2, hc1⟩ | ⟨e', j, hj, hc2, hc1⟩
          · rw [h2] at hc2
            obtain ⟨rfl, rfl⟩ : s1 = s' ∧ true = b := by
              cases hc2; exact ⟨rfl, rfl⟩
            obtain ⟨fuel, rfl⟩ : ∃ f, fuel = f + 1 := ⟨fuel - 1, by omega⟩
            have hp : passPhase rs 0 s =
                ((List.range' 0 rs.length).map REvent.restore, Except.ok (s1, true)) := by
              rw [← hc1, ← h2]
            have hloop := ih fuel s1 sk hok herr (by omega)
            simp [loopPhase, hp, hloop, List.replicate_succ]
          · rw [h2] at hc2; cases hc2

/-- Claim C6: if a restorer's `restore()` raises a non-dependency error
during a pass, the run aborts at once: the error is the run's result
(propagating to the top-level handler), and the trace ends at the failing
`restore()` call — no restorer is called after it, in that pass or any later
one. -/
theorem c6_error_aborts {ε σ : Type} (rs : List (CRestorer ε σ)) (s₀ : σ)
    (k fuel : Nat) (sk : σ) (e : ε)
    (hok : okStates rs k (cleanPhase rs 0 s₀).2 = some sk)
    (herr : (passPhase rs 0 sk).2 = Except.error e)
    (hfuel : k < fuel) :
    (runTrace rs fuel s₀).2 = Except.error e ∧
    ∃ j, j < rs.length ∧
      (runTrace rs fuel s₀).1 =
        (List.range rs.length).map REvent.clean ++
          ((List.replicate k ((List.range rs.length).map REvent.restore)).flatten ++
            (List.range (j + 1)).map REvent.restore) ∧
      (passPhase rs 0 sk).1 = (List.range (j + 1)).map REvent.restore := by
  have hloop := loopPhase_error rs e k fuel (cleanPhase rs 0 s₀).2 sk hok herr hfuel
  rcases passPhase_cases rs 0 sk with ⟨s', b, hc2, _⟩ | ⟨e', j, hj, hc2, hc1⟩
  · rw [herr] at hc2; cases hc2
  · refine ⟨by simp [runTrace, hloop], j, hj, ?_, ?_⟩
    · simp [runTrace, hloop, cleanPhase_trace, hc1, List.range_eq_range']
    · rw [hc1, List.range_eq_range']

/-- Witness for C6: a single restorer raising in the very first pass, with
fuel 1. -/
theorem c6_error_aborts_witness :
    okStates [failRestorer] 0 (cleanPhase [failRestorer] 0 ()).2 = some () ∧
    (passPhase [failRestorer] 0 ()).2 = Except.error 7 ∧
    0 < 1 ∧
    ((runTrace [failRestorer] 1 ()).2 = Except.error 7 ∧
      ∃ j, j < [failRestorer].length ∧
        (runTrace [failRestorer] 1 ()).1 =
          (List.range [failRestorer].length).map REvent.clean ++
            ((List.replicate 0 ((List.range [failRestorer].length).map REvent.restore)).flatten ++
              (List.range (j + 1)).map REvent.restore) ∧
        (passPhase [failRestorer] 0 ()).1 = (List.range (j + 1)).map REvent.restore) :=
  ⟨rfl, rfl, Nat.one_pos, c6_error_aborts [failRestorer] () 0 1 () 7 rfl rfl Nat.one_pos⟩

theorem idsOf_cons (r : DRecord) (rest : List DRecord) :
    idsOf (r :: rest) = r.rid :: idsOf rest := rfl

theorem mkRestorer_restore (recs : List DRecord) :
    (mkRestorer recs).restore = restoreRecords recs := rfl

theorem mkRestorer_cleanUp (recs : List DRecord) :
    (mkRestorer recs).cleanUp = fun s => s := rfl

theorem restoreRecords_cons_mem {r : DRecord} {ap : List Nat} (rest : List DRecord)
    (h : r.rid ∈ ap) : restoreRecords (r :: rest) ap = restoreRecords rest ap := by
  simp [restoreRecords, h]

theorem restoreRecords_cons_app {r : DRecord} {ap : List Nat} (rest : List DRecord)
    (h1 : r.rid ∉ ap) (h2 : r.deps.all (fun d => decide (d ∈ ap)) = true) :
    restoreRecords (r :: rest) ap = restoreRecords rest (r.rid :: ap) := by
  simp [restoreRecords, h1, h2]

theorem restoreRecords_cons_skip {r : DRecord} {ap : List Nat} (rest : List DRecord)
    (h1 : r.rid ∉ ap) (h2 : ¬ r.deps.all (fun d => decide (d ∈ ap)) = true) :
    restoreRecords (r :: rest) ap = ((restoreRecords rest ap).1, true) := by
  simp [restoreRecords, h1, h2]

theorem restoreRecords_mono : ∀ (recs : List DRecord) (ap : List Nat),
    ap ⊆ (restoreRecords recs ap).1 := by
  intro recs
  induction recs with
  | nil => intro ap x hx; exact hx
  | cons r rest ih =>
      intro ap
      by_cases h1 : r.rid ∈ ap
      · rw [restoreRecords_cons_mem rest h1]; exact ih ap
      · by_cases h2 : r.deps.all (fun d => decide (d ∈ ap)) = true
        · rw [restoreRecords_cons_app rest h1 h2]
          exact fun x hx => ih (r.rid :: ap) (List.mem_cons_of_mem _ hx)
        · rw [restoreRecords_cons_skip rest h1 h2]
          exact ih ap

theorem restoreRecords_applies : ∀ (recs : List DRecord) (ap₀ ap : List Nat),
    ap₀ ⊆ ap → (∀ r ∈ recs, ∀ d ∈ r.deps, d ∈ ap₀) →
    idsOf recs ⊆ (restoreRecords recs ap).1 := by
  intro recs
  induction recs with
  | nil => intro ap₀ ap _ _ x hx; cases hx
  | cons r rest ih =>
      intro ap₀ ap hsub hdeps
      have hdr : ∀ d ∈ r.deps, d ∈ ap :=
        fun d hd => hsub (hdeps r (List.mem_cons_self _ _) d hd)
      have htl : ∀ q ∈ rest, ∀ d ∈ q.deps, d ∈ ap₀ :=
        fun q hq => hdeps q (List.mem_cons_of_mem _ hq)
      by_cases h1 : r.rid ∈ ap
      · rw [restoreRecords_cons_mem rest h1]
        intro x hx
        rw [idsOf_cons] at hx
        rcases List.mem_cons.mp hx with rfl | hx'
        · exact restoreRecords_mono rest ap h1
        · exact ih ap₀ ap hsub htl hx'
      · have h2 : r.deps.all (fun d => decide (d ∈ ap)) = true := by
          rw [List.all_eq_true]; intro d hd; exact decide_eq_true (hdr d hd)
        rw [restoreRecords_cons_app rest h1 h2]
        intro x hx
        rw [idsOf_cons] at hx
        rcases List.mem_cons.mp hx with rfl | hx'
        · exact restoreRecords_mono rest _ (List.mem_cons_self _ _)
        · exact ih ap₀ (r.rid :: ap)
            (fun y hy => List.mem_cons_of_mem _ (hsub hy)) htl hx'

theorem restoreRecords_noretry : ∀ (recs : List DRecord) (ap : List Nat),
    (∀ r ∈ recs, r.rid ∈ ap ∨ ∀ d ∈ r.deps, d ∈ ap) →
    (restoreRecords recs ap).2 = false := by
  intro recs
  induction recs with
  | nil => intro ap _; rfl
  | cons r rest ih =>
      intro ap h
      by_cases h1 : r.rid ∈ ap
      · rw [restoreRecords_cons_mem rest h1]
        exact ih ap (fun q hq => h q (List.mem_cons_of_mem _ hq))
      · rcases h r (List.mem_cons_self _ _) with hm | hdeps
        · exact absurd hm h1
        · have h2 : r.deps.all (fun d => decide (d ∈ ap)) = true := by
            rw [List.all_eq_true]; intro d hd; exact decide_eq_true (hdeps d hd)
          rw [restoreRecords_cons_app rest h1 h2]
          apply ih (r.rid :: ap)
          intro q hq
          rcases h q (List.mem_cons_of_mem _ hq) with hm' | hd'
          · exact Or.inl (List.mem_cons_of_mem _ hm')
          · exact Or.inr (fun d hd => List.mem_cons_of_mem _ (hd' d hd))

theorem restorePass_cons {σ : Type} (r : Restorer σ) (rs : List (Restorer σ)) (s : σ) :
    restorePass (r :: rs) s =
      ((restorePass rs (r.restore s).1).1,
        (r.restore s).2 || (restorePass rs (r.restore s).1).2) := rfl

theorem restorePass_mk_mono : ∀ (cols : List (List DRecord)) (s : List Nat),
    s ⊆ (restorePass (cols.map mkRestorer) s).1 := by
  intro cols
  induction cols with
  | nil => intro s x hx; exact hx
  | cons c cols ih =>
      intro s x hx
      rw [List.map_cons, restorePass_cons]
      exact ih _ (restoreRecords_mono c s hx)

theorem restorePass_mk_applies : ∀ (cols : List (List DRecord)) (s : List Nat)
    (c₀ : List DRecord), c₀ ∈ cols → (∀ r ∈ c₀, ∀ d ∈ r.deps, d ∈ s) →
    idsOf c₀ ⊆ (restorePass (cols.map mkRestorer) s).1 := by
  intro cols
  induction cols with
  | nil => intro s c₀ hmem; cases hmem
  | cons c cols ih =>
      intro s c₀ hmem hdeps
      rw [List.map_cons, restorePass_cons]
      rcases List.mem_cons.mp hmem with rfl | hmem'
      · intro x hx
        exact restorePass_mk_mono cols _
          (restoreRecords_applies c₀ s s (fun y hy => hy) hdeps hx)
      · exact ih _ c₀ hmem'
          (fun r hr d hd => restoreRecords_mono c s (hdeps r hr d hd))

theorem restorePass_mk_noretry : ∀ (cols : List (List DRecord)) (s : List Nat),
    (∀ c ∈ cols, ∀ r ∈ c, r.rid ∈ s ∨ ∀ d ∈ r.deps, d ∈ s) →
    (restorePass (cols.map mkRestorer) s).2 = false := by
  intro cols
  induction cols with
  | nil => intro s _; rfl
  | cons c cols ih =>
      intro s h
      rw [List.map_cons, restorePass_cons]
      have h1 : ((mkRestorer c).restore s).2 = false :=
        restoreRecords_noretry c s (h c (List.mem_cons_self _ _))
      have h2 : (restorePass (cols.map mkRestorer) ((mkRestorer c).restore s).1).2 = false := by
        apply ih
        intro c' hc' r hr
        rcases h c' (List.mem_cons_of_mem _ hc') r hr with hm | hd
        · exact Or.inl (restoreRecords_mono c s hm)
        · exact Or.inr (fun d hdd => restoreRecords_mono c s (hd d hdd))
      simp [h1, h2]

theorem cleanUpAll_mk : ∀ (cols : List (List DRecord)) (s : List Nat),
    cleanUpAll (cols.map mkRestorer) s = s := by
  intro cols
  induction cols with
  | nil => intro s; rfl
  | cons c cols ih => intro s; simpa [cleanUpAll, mkRestorer_cleanUp] using ih s

theorem passIter_succ_shift {σ : Type} (rs : List (Restorer σ)) (s : σ) :
    ∀ n, passIter rs s (n + 1) = passIter rs (restorePass rs s).1 n := by
  intro n
  induction n with
  | zero => rfl
  | succ n ih =>
      show (restorePass rs (passIter rs s (n + 1))).1 =
        (restorePass rs (passIter rs (restorePass rs s).1 n)).1
      rw [ih]

theorem runLoop_isSome_of_pass_false {σ : Type} :
    ∀ (fuel : Nat) (rs : List (Restorer σ)) (s : σ) (k : Nat),
      k < fuel → (restorePass rs (passIter rs s k)).2 = false →
      (runLoop rs fuel s).isSome := by
  intro fuel
  induction fuel with
  | zero => intro rs s k hk; exact absurd hk (Nat.not_lt_zero k)
  | succ fuel ih =>
      intro rs s k hk hfalse
      cases hp : (restorePass rs s).2 with
      | false => simp [runLoop, hp]
      | true =>
          cases k with
          | zero =>
              rw [show passIter rs s 0 = s from rfl, hp] at hfalse
              cases hfalse
          | succ k =>
              have := ih rs (restorePass rs s).1 k (by omega)
                (by rw [← passIter_succ_shift]; exact hfalse)
              simpa [runLoop, hp] using this

theorem idsUpTo_succ (cols : List (List DRecord)) (k : Nat) :
    idsUpTo cols (k + 1) = idsUpTo cols k ++ (cols.get? k).toList.flatMap idsOf := by
  simp [idsUpTo, List.take_succ]

theorem idsUpTo_succ_cons (c : List DRecord) (cols : List (List DRecord)) (k : Nat) :
    idsUpTo (c :: cols) (k + 1) = idsOf c ++ idsUpTo cols k := by
  simp [idsUpTo, List.take_succ_cons]

theorem idsUpTo_mono_succ (cols : List (List DRecord)) (k : Nat) :
    idsUpTo cols k ⊆ idsUpTo cols (k + 1) := by
  rw [idsUpTo_succ]
  exact List.subset_append_left _ _

theorem idsUpTo_mono (cols : List (List DRecord)) :
    ∀ {k k' : Nat}, k ≤ k' → idsUpTo cols k ⊆ idsUpTo cols k' := by
  intro k k' h
  induction h with
  | refl => exact fun x hx => hx
  | step _ ih => exact fun x hx => idsUpTo_mono_succ cols _ (ih hx)

theorem idsOf_get_subset (cols : List (List DRecord)) (i : Nat) (hi : i < cols.length) :
    idsOf (cols.get ⟨i, hi⟩) ⊆ idsUpTo cols (i + 1) := by
  rw [idsUpTo_succ, List.get?_eq_get hi]
  intro x hx
  exact List.mem_append.mpr (Or.inr (by simpa using hx))

theorem chainFrom_deps : ∀ (cols : List (List DRecord)) (prev : List Nat),
    ChainFrom prev cols → ∀ (k : Nat) (hk : k < cols.length),
      ∀ r ∈ cols.get ⟨k, hk⟩, ∀ d ∈ r.deps, d ∈ prev ++ idsUpTo cols k := by
  intro cols
  induction cols with
  | nil => intro prev _ k hk; exact absurd hk (by simp)
  | cons c cols ih =>
      intro prev hch k hk r hr d hd
      obtain ⟨h1, h2⟩ := hch
      cases k with
      | zero =>
          exact List.mem_append.mpr (Or.inl (h1 r hr d hd))
      | succ k =>
          have hk' : k < cols.length := by simpa using hk
          have hmem := ih (idsOf c) h2 k hk' r hr d hd
          rw [idsUpTo_succ_cons]
          rcases List.mem_append.mp hmem with hA | hB
          · exact List.mem_append.mpr (Or.inr (List.mem_append.mpr (Or.inl hA)))
          · exact List.mem_append.mpr (Or.inr (List.mem_append.mpr (Or.inr hB)))

theorem chain_invariant (cols ord : List (List DRecord)) (s₀ : List Nat)
    (hch : IsChain cols) (hmem : ∀ c ∈ cols, c ∈ ord) :
    ∀ k, idsUpTo cols k ⊆ passIter (ord.map mkRestorer) s₀ k := by
  intro k
  induction k with
  | zero => intro x hx; simp [idsUpTo] at hx
  | succ k ih =>
      intro x hx
      rw [idsUpTo_succ] at hx
      rcases List.mem_append.mp hx with hx1 | hx2
      · exact restorePass_mk_mono ord (passIter (ord.map mkRestorer) s₀ k) (ih hx1)
      · cases hget : cols.get? k with
        | none => rw [hget] at hx2; simp at hx2
        | some c =>
            rw [hget] at hx2
            simp only [Option.toList_some, List.flatMap_cons, List.flatMap_nil,
              List.append_nil] at hx2
            obtain ⟨hk, hc⟩ := List.get?_eq_some.mp hget
            have hdeps : ∀ r ∈ c, ∀ d ∈ r.deps,
                d ∈ passIter (ord.map mkRestorer) s₀ k := by
              intro r hr d hd
              have := chainFrom_deps cols [] hch k hk r (by rw [hc]; exact hr) d hd
              exact ih (by simpa using this)
            exact restorePass_mk_applies ord (passIter (ord.map mkRestorer) s₀ k) c
              (hmem c (hc ▸ List.get_mem cols k hk)) hdeps hx2

/-- Claim C2: for a dependency chain of N collections — each collection's
records referencing only the previous collection's identifiers — the driver
converges within N passes in whatever order the restorers are declared,
because the applied-identifier set only grows from pass to pass and the
first k chain levels are fully applied after k passes, so pass N requests no
retry. -/
theorem c2_chain_converges (cols ord : List (List DRecord)) (s₀ : List Nat)
    (hchain : IsChain cols) (hperm : cols.Perm ord) (hlen : 0 < cols.length) :
    (runDriver (ord.map mkRestorer) cols.length s₀).isSome := by
  rw [runDriver, cleanUpAll_mk]
  apply runLoop_isSome_of_pass_false cols.length (ord.map mkRestorer) s₀
    (cols.length - 1) (by omega)
  apply restorePass_mk_noretry
  intro c hc r hr
  have hcc : c ∈ cols := hperm.symm.subset hc
  obtain ⟨⟨i, hi⟩, hg⟩ := List.mem_iff_get.mp hcc
  by_cases hlast : i + 1 ≤ cols.length - 1
  · refine Or.inl ?_
    have h1 : r.rid ∈ idsUpTo cols (i + 1) :=
      idsOf_get_subset cols i hi (by rw [hg]; exact List.mem_map.mpr ⟨r, hr, rfl⟩)
    exact chain_invariant cols ord s₀ hchain hperm.subset _
      (idsUpTo_mono cols hlast h1)
  · refine Or.inr ?_
    intro d hd
    have hmem := chainFrom_deps cols [] hchain i hi r (by rw [hg]; exact hr) d hd
    have h2 : d ∈ idsUpTo cols i := by simpa using hmem
    exact chain_invariant cols ord s₀ hchain hperm.subset _
      (idsUpTo_mono cols (by omega) h2)

/-- Witness for C2: the chain roles ← users (record 1 references record 0)
declared in the worst order, converging within 2 passes. -/
theorem c2_chain_converges_witness :
    IsChain [[DRecord.mk 0 []], [DRecord.mk 1 [0]]] ∧
    List.Perm [[DRecord.mk 0 []], [DRecord.mk 1 [0]]] [[DRecord.mk 1 [0]], [DRecord.mk 0 []]] ∧
    0 < ([[DRecord.mk 0 []], [DRecord.mk 1 [0]]] : List (List DRecord)).length ∧
    (runDriver ([[DRecord.mk 1 [0]], [DRecord.mk 0 []]].map mkRestorer)
      ([[DRecord.mk 0 []], [DRecord.mk 1 [0]]] : List (List DRecord)).length []).isSome :=
  ⟨by decide, List.Perm.swap _ _ _, by decide,
    c2_chain_converges [[DRecord.mk 0 []], [DRecord.mk 1 [0]]]
      [[DRecord.mk 1 [0]], [DRecord.mk 0 []]] [] (by decide)
      (List.Perm.swap _ _ _) (by decide)⟩

theorem filterMap_congr_mem {α β : Type} {f g : α → Option β} :
    ∀ (l : List α), (∀ a ∈ l, f a = g a) → l.filterMap f = l.filterMap g := by
  intro l
  induction l with
  | nil => intro _; rfl
  | cons a l ih =>
      intro h
      rw [List.filterMap_cons, List.filterMap_cons, h a (List.mem_cons_self _ _),
        ih (fun b hb => h b (List.mem_cons_of_mem _ hb))]

theorem filterMap_some_eq_map {α β : Type} (f : α → β) :
    ∀ (l : List α), l.filterMap (fun a => some (f a)) = l.map f := by
  intro l
  induction l with
  | nil => rfl
  | cons a l ih => rw [List.filterMap_cons, List.map_cons, ih]

theorem filterMap_none_eq_nil {α β : Type} :
    ∀ (l : List α), l.filterMap (fun _ => (none : Option β)) = [] := by
  intro l
  induction l with
  | nil => rfl
  | cons a l ih => rw [List.filterMap_cons, ih]

theorem flatMap_congr_mem {α β : Type} {f g : α → List β} :
    ∀ (l : List α), (∀ a ∈ l, f a = g a) → l.flatMap f = l.flatMap g := by
  intro l
  induction l with
  | nil => intro _; rfl
  | cons a l ih =>
      intro h
      rw [List.flatMap_cons, List.flatMap_cons, h a (List.mem_cons_self _ _),
        ih (fun b hb => h b (List.mem_cons_of_mem _ hb))]

theorem sorted_lt_of_le_nodup {l : List Nat} (hs : List.Sorted (· ≤ ·) l)
    (hn : l.Nodup) : List.Sorted (· < ·) l :=
  (List.Pairwise.and hs hn).imp (fun h => lt_of_le_of_ne h.1 h.2)

theorem sortKeys_sorted_le (l : List Nat) :
    List.Sorted (· ≤ ·) (SnapshotClient.sortKeys l) :=
  List.sorted_insertionSort _ _

theorem sortKeys_nodup (l : List Nat) : (SnapshotClient.sortKeys l).Nodup :=
  (List.perm_insertionSort _ _).symm.nodup (List.nodup_dedup l)

theorem sortKeys_sorted_lt (l : List Nat) :
    List.Sorted (· < ·) (SnapshotClient.sortKeys l) :=
  sorted_lt_of_le_nodup (sortKeys_sorted_le l) (sortKeys_nodup l)

theorem mem_sortKeys {x : Nat} {l : List Nat} :
    x ∈ SnapshotClient.sortKeys l ↔ x ∈ l :=
  ((List.perm_insertionSort _ _).mem_iff).trans List.mem_dedup

theorem sortKeys_eq_of {l m : List Nat} (hm : List.Sorted (· < ·) m)
    (hmem : ∀ x, x ∈ m ↔ x ∈ l) : SnapshotClient.sortKeys l = m := by
  have hperm : (SnapshotClient.sortKeys l).Perm m :=
    (List.perm_ext_iff_of_nodup (sortKeys_nodup l) hm.nodup).mpr
      (fun a => mem_sortKeys.trans (hmem a).symm)
  exact List.eq_of_perm_of_sorted hperm (sortKeys_sorted_le l)
    (hm.imp le_of_lt)

theorem sortKeys_eq_self {l : List Nat} (h : List.Sorted (· < ·) l) :
    SnapshotClient.sortKeys l = l :=
  sortKeys_eq_of h (fun _ => Iff.rfl)

theorem writeJson_fresh (fs : FS) (p : FKey) (c : FContent)
    (h : ∀ e ∈ fs, e.1 ≠ p) : writeJson fs p c = fs ++ [(p, c)] := by
  rw [writeJson, List.filter_eq_self.mpr (fun e he => decide_eq_true (h e he))]

theorem foldl_writeJson_fresh :
    ∀ (files : List (FKey × FContent)) (fs : FS),
      (files.map Prod.fst).Nodup →
      (∀ p ∈ files.map Prod.fst, p ∉ fs.map Prod.fst) →
      files.foldl (fun acc f => writeJson acc f.1 f.2) fs = fs ++ files := by
  intro files
  induction files with
  | nil => intro fs _ _; simp
  | cons f files ih =>
      intro fs hnd hdisj
      have hw : writeJson fs f.1 f.2 = fs ++ [f] := by
        rw [writeJson_fresh]
        intro e he hep
        exact hdisj f.1 (List.mem_cons_self _ _) (List.mem_map.mpr ⟨e, he, hep⟩)
      rw [List.foldl_cons, hw, ih (fs ++ [f]) (List.nodup_cons.mp hnd).2]
      · rw [List.append_assoc]; rfl
      · intro p hp hmem
        rcases List.mem_map.mp hmem with ⟨e, he, hep⟩
        rcases List.mem_append.mp he with he1 | he2
        · exact hdisj p (List.mem_cons_of_mem _ hp) (List.mem_map.mpr ⟨e, he1, hep⟩)
        · rw [List.mem_singleton.mp he2] at hep
          exact (List.nodup_cons.mp hnd).1 (hep ▸ hp)

theorem saveData_split_eq (old : FS) (data : Snapshot)
    (hnd : ((SnapshotClient.decomposeData data).map Prod.fst).Nodup) :
    (SnapshotClient.saveData old true data).1 = SnapshotClient.decomposeData data := by
  have := foldl_writeJson_fresh (SnapshotClient.decomposeData data) [] hnd
    (by intro p _ hp; simp at hp)
  simpa [SnapshotClient.saveData] using this

theorem fsLookup_nodup :
    ∀ (fs : FS) (p : FKey) (c : FContent), (fs.map Prod.fst).Nodup →
      (p, c) ∈ fs → fsLookup fs p = some c := by
  intro fs
  induction fs with
  | nil => intro p c _ h; cases h
  | cons e fs ih =>
      intro p c hnd hmem
      by_cases hep : e.1 = p
      · have he : e = (p, c) := by
          rcases List.mem_cons.mp hmem with h | h
          · exact h.symm
          · exact absurd (List.mem_map.mpr ⟨(p, c), h, hep.symm⟩)
              (List.nodup_cons.mp hnd).1
        subst he
        have hfind : List.find? (fun e => decide (e.1 = p)) ((p, c) :: fs) = some (p, c) := by
          rw [List.find?_cons]; simp
        rw [fsLookup, hfind]
        rfl
      · have hmem' : (p, c) ∈ fs := by
          rcases List.mem_cons.mp hmem with h | h
          · exact absurd (congrArg Prod.fst h.symm) hep
          · exact h
        have hfind : List.find? (fun e => decide (e.1 = p)) (e :: fs) =
            List.find? (fun e => decide (e.1 = p)) fs := by
          rw [List.find?_cons]; simp [hep]
        rw [fsLookup, hfind]
        exact ih p c (List.nodup_cons.mp hnd).2 hmem'

theorem collKeys_decompose (s : Snapshot) :
    SnapshotClient.collKeys (SnapshotClient.decomposeData s) =
      s.collections.map (·.collection) := by
  simp only [SnapshotClient.collKeys, SnapshotClient.decomposeData,
    List.filterMap_cons, List.filterMap_append, List.filterMap_map, Function.comp_def]
  rw [filterMap_some_eq_map, filterMap_none_eq_nil, filterMap_none_eq_nil]
  simp

theorem fldKeys_decompose (s : Snapshot) :
    SnapshotClient.fldKeys (SnapshotClient.decomposeData s) =
      s.fields.map (fun f => (f.collection, f.field)) := by
  simp only [SnapshotClient.fldKeys, SnapshotClient.decomposeData,
    List.filterMap_cons, List.filterMap_append, List.filterMap_map, Function.comp_def]
  rw [filterMap_some_eq_map, filterMap_none_eq_nil, filterMap_none_eq_nil]
  simp

theorem relKeys_decompose (s : Snapshot) :
    SnapshotClient.relKeys (SnapshotClient.decomposeData s) =
      s.relations.map (fun r => (r.collection, r.field)) := by
  simp only [SnapshotClient.relKeys, SnapshotClient.decomposeData,
    List.filterMap_cons, List.filterMap_append, List.filterMap_map, Function.comp_def]
  rw [filterMap_some_eq_map, filterMap_none_eq_nil, filterMap_none_eq_nil]
  simp

instance instIrreflLexLt : IsIrrefl (Nat × Nat) lexLt :=
  ⟨fun a h => by rcases h with h | ⟨_, h⟩ <;> exact lt_irrefl _ h⟩

theorem fld_uncurry_injective :
    Function.Injective (fun q : Nat × Nat => FKey.fld q.1 q.2) := by
  intro a b h
  obtain ⟨h1, h2⟩ := FKey.fld.inj h
  exact Prod.ext h1 h2

theorem rel_uncurry_injective :
    Function.Injective (fun q : Nat × Nat => FKey.rel q.1 q.2) := by
  intro a b h
  obtain ⟨h1, h2⟩ := FKey.rel.inj h
  exact Prod.ext h1 h2

theorem decompose_keys_eq (s : Snapshot) :
    (SnapshotClient.decomposeData s).map Prod.fst =
      FKey.info :: (s.collections.map (fun c => FKey.coll c.collection) ++
        s.fields.map (fun f => FKey.fld f.collection f.field) ++
        s.relations.map (fun r => FKey.rel r.collection r.field)) := by
  simp only [SnapshotClient.decomposeData, List.map_cons, List.map_append, List.map_map]
  rfl

theorem decompose_keys_nodup (s : Snapshot) (h1 : CollSorted s) (h2 : FieldSorted s)
    (h3 : RelSorted s) :
    ((SnapshotClient.decomposeData s).map Prod.fst).Nodup := by
  rw [decompose_keys_eq]
  have hc : (s.collections.map (fun c => FKey.coll c.collection)).Nodup := by
    have heq : s.collections.map (fun c => FKey.coll c.collection) =
        (s.collections.map (·.collection)).map FKey.coll := (List.map_map _ _ _).symm
    rw [heq]
    exact h1.nodup.map (fun a b h => FKey.coll.inj h)
  have hf : (s.fields.map (fun f => FKey.fld f.collection f.field)).Nodup := by
    have heq : s.fields.map (fun f => FKey.fld f.collection f.field) =
        (s.fields.map (fun f => (f.collection, f.field))).map
          (fun q : Nat × Nat => FKey.fld q.1 q.2) := by
      rw [List.map_map]; rfl
    rw [heq]
    exact h2.nodup.map fld_uncurry_injective
  have hr : (s.relations.map (fun r => FKey.rel r.collection r.field)).Nodup := by
    have heq : s.relations.map (fun r => FKey.rel r.collection r.field) =
        (s.relations.map (fun r => (r.collection, r.field))).map
          (fun q : Nat × Nat => FKey.rel q.1 q.2) := by
      rw [List.map_map]; rfl
    rw [heq]
    exact h3.nodup.map rel_uncurry_injective
  refine List.nodup_cons.mpr ⟨?_, ?_⟩
  · intro hmem
    rcases List.mem_append.mp hmem with h | h
    · rcases List.mem_append.mp h with h' | h'
      · obtain ⟨c, _, hc'⟩ := List.mem_map.mp h'; cases hc'
      · obtain ⟨f, _, hf'⟩ := List.mem_map.mp h'; cases hf'
    · obtain ⟨r, _, hr'⟩ := List.mem_map.mp h; cases hr'
  · refine List.nodup_append.mpr ⟨List.nodup_append.mpr ⟨hc, hf, ?_⟩, hr, ?_⟩
    · intro x hx hx'
      obtain ⟨c, _, rfl⟩ := List.mem_map.mp hx
      obtain ⟨f, _, hf'⟩ := List.mem_map.mp hx'
      cases hf'
    · intro x hx hx'
      obtain ⟨r, _, rfl⟩ := List.mem_map.mp hx'
      rcases List.mem_append.mp hx with h | h
      · obtain ⟨c, _, hc'⟩ := List.mem_map.mp h; cases hc'
      · obtain ⟨f, _, hf'⟩ := List.mem_map.mp h; cases hf'

theorem lookup_info_decompose (s : Snapshot) :
    fsLookup (SnapshotClient.decomposeData s) FKey.info =
      some (FContent.cInfo s.info) := by
  rw [SnapshotClient.decomposeData, fsLookup, List.find?_cons]
  simp

theorem lookup_coll_decompose (s : Snapshot)
    (hnd : ((SnapshotClient.decomposeData s).map Prod.fst).Nodup)
    (c : Collection) (hc : c ∈ s.collections) :
    fsLookup (SnapshotClient.decomposeData s) (FKey.coll c.collection) =
      some (FContent.cColl c) :=
  fsLookup_nodup _ _ _ hnd (by
    rw [SnapshotClient.decomposeData]
    exact List.mem_cons_of_mem _ (List.mem_append.mpr (Or.inl
      (List.mem_append.mpr (Or.inl (List.mem_map.mpr ⟨c, hc, rfl⟩))))))

theorem lookup_fld_decompose (s : Snapshot)
    (hnd : ((SnapshotClient.decomposeData s).map Prod.fst).Nodup)
    (f : Field) (hf : f ∈ s.fields) :
    fsLookup (SnapshotClient.decomposeData s) (FKey.fld f.collection f.field) =
      some (FContent.cFld f) :=
  fsLookup_nodup _ _ _ hnd (by
    rw [SnapshotClient.decomposeData]
    exact List.mem_cons_of_mem _ (List.mem_append.mpr (Or.inl
      (List.mem_append.mpr (Or.inr (List.mem_map.mpr ⟨f, hf, rfl⟩))))))

theorem lookup_rel_decompose (s : Snapshot)
    (hnd : ((SnapshotClient.decomposeData s).map Prod.fst).Nodup)
    (r : Relation) (hr : r ∈ s.relations) :
    fsLookup (SnapshotClient.decomposeData s) (FKey.rel r.collection r.field) =
      some (FContent.cRel r) :=
  fsLookup_nodup _ _ _ hnd (by
    rw [SnapshotClient.decomposeData]
    exact List.mem_cons_of_mem _ (List.mem_append.mpr
      (Or.inr (List.mem_map.mpr ⟨r, hr, rfl⟩))))

theorem loadCollectionsDir_decompose (s : Snapshot) (h1 : CollSorted s)
    (hnd : ((SnapshotClient.decomposeData s).map Prod.fst).Nodup) :
    SnapshotClient.loadCollectionsDir (SnapshotClient.decomposeData s) =
      s.collections := by
  rw [SnapshotClient.loadCollectionsDir, collKeys_decompose, sortKeys_eq_self h1,
    List.filterMap_map]
  have hpt : ∀ c ∈ s.collections,
      ((fun n =>
        match fsLookup (SnapshotClient.decomposeData s) (FKey.coll n) with
        | some (FContent.cColl c) => some c
        | _ => none) ∘ (·.collection)) c = some c := by
    intro c hc
    simp only [Function.comp]
    rw [lookup_coll_decompose s hnd c hc]
  rw [filterMap_congr_mem _ hpt, filterMap_some_eq_map]
  exact List.map_id _

theorem sorted_fst_le {l : List (Nat × Nat)} (h : List.Sorted lexLt l) :
    List.Sorted (· ≤ ·) (l.map Prod.fst) := by
  rw [List.Sorted, List.pairwise_map]
  refine h.imp ?_
  intro a b hab
  rcases hab with h' | ⟨h', _⟩
  · exact le_of_lt h'
  · exact le_of_eq h'

theorem sorted_snd_of_const_fst {m : List (Nat × Nat)} {c : Nat}
    (hconst : ∀ q ∈ m, q.1 = c) (hs : List.Sorted lexLt m) :
    List.Sorted (· < ·) (m.map Prod.snd) := by
  rw [List.Sorted, List.pairwise_map]
  refine hs.imp_of_mem ?_
  intro a b ha hb hab
  rcases hab with h' | ⟨_, h'⟩
  · rw [hconst a ha, hconst b hb] at h'
    exact absurd h' (lt_irrefl c)
  · exact h'

theorem filter_block_decomp :
    ∀ (l : List (Nat × Nat)) (c₀ : Nat), List.Sorted lexLt l →
      (∀ q ∈ l, c₀ ≤ q.1) →
      l.filter (fun q => decide (q.1 = c₀)) ++ l.filter (fun q => decide (q.1 ≠ c₀)) = l := by
  intro l
  induction l with
  | nil => intro c₀ _ _; rfl
  | cons p rest ih =>
      intro c₀ hs hmin
      by_cases hp : p.1 = c₀
      · rw [List.filter_cons_of_pos (by simpa using hp),
          List.filter_cons_of_neg (by simpa using hp), List.cons_append,
          ih c₀ (List.sorted_cons.mp hs).2 (fun q hq => hmin q (List.mem_cons_of_mem _ hq))]
      · have hall : ∀ q ∈ p :: rest, ¬ q.1 = c₀ := by
          intro q hq
          rcases List.mem_cons.mp hq with rfl | hq'
          · exact hp
          · have hlt : c₀ < p.1 :=
              lt_of_le_of_ne (hmin p (List.mem_cons_self _ _)) (fun h => hp h.symm)
            rcases (List.sorted_cons.mp hs).1 q hq' with h' | ⟨h', _⟩
            · intro hc; rw [hc] at h'; exact absurd (lt_trans hlt h') (lt_irrefl c₀)
            · intro hc; rw [← h'] at hc; exact hp hc
        have hA : (p :: rest).filter (fun q => decide (q.1 = c₀)) = [] :=
          List.filter_eq_nil_iff.mpr (fun q hq => by simpa using hall q hq)
        have hB : (p :: rest).filter (fun q => decide (q.1 ≠ c₀)) = p :: rest :=
          List.filter_eq_self.mpr (fun q hq => by simpa using hall q hq)
        rw [hA, hB, List.nil_append]

theorem loadPairDir_sorted_aux {α : Type} :
    ∀ (n : Nat) (l : List (Nat × Nat)), l.length ≤ n → List.Sorted lexLt l →
      ∀ (get : Nat → Nat → Option α),
        SnapshotClient.loadPairDir l get = l.filterMap (fun q => get q.1 q.2) := by
  intro n
  induction n with
  | zero =>
      intro l hl _ get
      rw [List.length_eq_zero.mp (Nat.le_zero.mp hl)]
      rfl
  | succ n ih =>
      intro l hl hs get
      cases l with
      | nil => rfl
      | cons p rest =>
          have hmin : ∀ q ∈ p :: rest, p.1 ≤ q.1 := by
            intro q hq
            rcases List.mem_cons.mp hq with rfl | hq'
            · exact le_refl _
            · rcases (List.sorted_cons.mp hs).1 q hq' with h' | ⟨h', _⟩
              · exact le_of_lt h'
              · exact le_of_eq h'
          have hsplit := filter_block_decomp (p :: rest) p.1 hs hmin
          have hmemA : ∀ q ∈ (p :: rest).filter (fun k => decide (k.1 = p.1)), q.1 = p.1 := by
            intro q hq
            have := (List.mem_filter.mp hq).2
            simpa using this
          have hmemBne : ∀ q ∈ (p :: rest).filter (fun k => decide (k.1 ≠ p.1)), ¬ q.1 = p.1 := by
            intro q hq
            have := (List.mem_filter.mp hq).2
            simpa using this
          have hsA : List.Sorted lexLt ((p :: rest).filter (fun k => decide (k.1 = p.1))) :=
            hs.sublist (List.filter_sublist _)
          have hsB : List.Sorted lexLt ((p :: rest).filter (fun k => decide (k.1 ≠ p.1))) :=
            hs.sublist (List.filter_sublist _)
          have houter : SnapshotClient.sortKeys ((p :: rest).map Prod.fst) =
              p.1 :: SnapshotClient.sortKeys
                (((p :: rest).filter (fun k => decide (k.1 ≠ p.1))).map Prod.fst) := by
            apply sortKeys_eq_of
            · rw [List.sorted_cons]
              refine ⟨?_, sortKeys_sorted_lt _⟩
              intro b hb
              rcases List.mem_map.mp (mem_sortKeys.mp hb) with ⟨q, hq, rfl⟩
              exact lt_of_le_of_ne (hmin q ((List.filter_sublist _).subset hq))
                (fun h => hmemBne q hq h.symm)
            · intro x
              constructor
              · intro hx
                rcases List.mem_cons.mp hx with rfl | hx'
                · exact List.mem_map.mpr ⟨p, List.mem_cons_self _ _, rfl⟩
                · rcases List.mem_map.mp (mem_sortKeys.mp hx') with ⟨q, hq, rfl⟩
                  exact List.mem_map.mpr ⟨q, (List.filter_sublist _).subset hq, rfl⟩
              · intro hx
                rcases List.mem_map.mp hx with ⟨q, hq, rfl⟩
                by_cases hqc : q.1 = p.1
                · rw [hqc]; exact List.mem_cons_self _ _
                · exact List.mem_cons_of_mem _ (mem_sortKeys.mpr (List.mem_map.mpr
                    ⟨q, List.mem_filter.mpr ⟨hq, by simpa using hqc⟩, rfl⟩))
          rw [SnapshotClient.loadPairDir, houter, List.flatMap_cons]
          have hinnerA :
              (SnapshotClient.sortKeys
                (((p :: rest).filter (fun k => decide (k.1 = p.1))).map Prod.snd)).filterMap
                  (get p.1) =
              ((p :: rest).filter (fun k => decide (k.1 = p.1))).filterMap
                (fun q => get q.1 q.2) := by
            rw [sortKeys_eq_self (sorted_snd_of_const_fst hmemA hsA), List.filterMap_map]
            refine filterMap_congr_mem _ ?_
            intro q hq
            have hc := hmemA q hq
            show get p.1 q.2 = get q.1 q.2
            rw [hc]
          have hcongr : ∀ c ∈ SnapshotClient.sortKeys
              (((p :: rest).filter (fun k => decide (k.1 ≠ p.1))).map Prod.fst),
              (SnapshotClient.sortKeys
                (((p :: rest).filter (fun k => decide (k.1 = c))).map Prod.snd)).filterMap
                  (get c) =
              (SnapshotClient.sortKeys
                ((((p :: rest).filter (fun k => decide (k.1 ≠ p.1))).filter
                  (fun k => decide (k.1 = c))).map Prod.snd)).filterMap (get c) := by
            intro c hc
            rcases List.mem_map.mp (mem_sortKeys.mp hc) with ⟨q, hq, rfl⟩
            have hfilter : (p :: rest).filter (fun k => decide (k.1 = q.1)) =
                ((p :: rest).filter (fun k => decide (k.1 ≠ p.1))).filter
                  (fun k => decide (k.1 = q.1)) := by
              conv =>
                lhs
                rw [← hsplit]
              rw [List.filter_append,
                List.filter_eq_nil_iff.mpr (fun a ha => by
                  have h1 := hmemA a ha
                  have h2 := hmemBne q hq
                  simp only [decide_eq_true_eq]
                  rw [h1]
                  exact fun h => h2 h.symm),
                List.nil_append]
            rw [hfilter]
          rw [flatMap_congr_mem _ hcongr]
          have hlenAB : ((p :: rest).filter (fun k => decide (k.1 = p.1))).length +
              ((p :: rest).filter (fun k => decide (k.1 ≠ p.1))).length =
              (p :: rest).length := by
            rw [← List.length_append, hsplit]
          have hpA : p ∈ (p :: rest).filter (fun k => decide (k.1 = p.1)) :=
            List.mem_filter.mpr ⟨List.mem_cons_self _ _, by simp⟩
          have hlenB : ((p :: rest).filter (fun k => decide (k.1 ≠ p.1))).length ≤ n := by
            have h3 : 0 < ((p :: rest).filter (fun k => decide (k.1 = p.1))).length :=
              List.length_pos.mpr (fun hnil => by rw [hnil] at hpA; cases hpA)
            have h4 : (p :: rest).length ≤ n + 1 := hl
            simp only [List.length_cons] at h4 hlenAB
            omega
          have htail := ih ((p :: rest).filter (fun k => decide (k.1 ≠ p.1))) hlenB hsB get
          rw [SnapshotClient.loadPairDir] at htail
          rw [hinnerA, htail, ← List.filterMap_append, hsplit]

theorem loadPairDir_sorted {α : Type} (l : List (Nat × Nat))
    (hs : List.Sorted lexLt l) (get : Nat → Nat → Option α) :
    SnapshotClient.loadPairDir l get = l.filterMap (fun q => get q.1 q.2) :=
  loadPairDir_sorted_aux l.length l (le_refl _) hs get

theorem loadFieldsDir_decompose (s : Snapshot) (h2 : FieldSorted s)
    (hnd : ((SnapshotClient.decomposeData s).map Prod.fst).Nodup) :
    SnapshotClient.loadFieldsDir (SnapshotClient.decomposeData s) = s.fields := by
  rw [SnapshotClient.loadFieldsDir, fldKeys_decompose, loadPairDir_sorted _ h2,
    List.filterMap_map]
  have hpt : ∀ f ∈ s.fields,
      ((fun q : Nat × Nat =>
        match fsLookup (SnapshotClient.decomposeData s) (FKey.fld q.1 q.2) with
        | some (FContent.cFld x) => some x
        | _ => none) ∘ (fun f => (f.collection, f.field))) f = some f := by
    intro f hf
    show (match fsLookup (SnapshotClient.decomposeData s) (FKey.fld f.collection f.field) with
      | some (FContent.cFld x) => some x
      | _ => none) = some f
    rw [lookup_fld_decompose s hnd f hf]
  rw [filterMap_congr_mem _ hpt, filterMap_some_eq_map]
  exact List.map_id _

theorem loadRelationsDir_decompose (s : Snapshot) (h3 : RelSorted s)
    (hnd : ((SnapshotClient.decomposeData s).map Prod.fst).Nodup) :
    SnapshotClient.loadRelationsDir (SnapshotClient.decomposeData s) = s.relations := by
  rw [SnapshotClient.loadRelationsDir, relKeys_decompose, loadPairDir_sorted _ h3,
    List.filterMap_map]
  have hpt : ∀ r ∈ s.relations,
      ((fun q : Nat × Nat =>
        match fsLookup (SnapshotClient.decomposeData s) (FKey.rel q.1 q.2) with
        | some (FContent.cRel x) => some x
        | _ => none) ∘ (fun r => (r.collection, r.field))) r = some r := by
    intro r hr
    show (match fsLookup (SnapshotClient.decomposeData s) (FKey.rel r.collection r.field) with
      | some (FContent.cRel x) => some x
      | _ => none) = some r
    rw [lookup_rel_decompose s hnd r hr]
  rw [filterMap_congr_mem _ hpt, filterMap_some_eq_map]
  exact List.map_id _

theorem loadData_split_decompose (s : Snapshot) (h1 : CollSorted s)
    (h2 : FieldSorted s) (h3 : RelSorted s) :
    SnapshotClient.loadData (SnapshotClient.decomposeData s) true = some s := by
  have hnd := decompose_keys_nodup s h1 h2 h3
  rw [SnapshotClient.loadData, if_pos rfl, lookup_info_decompose]
  show some (Snapshot.mk s.info
      (SnapshotClient.loadCollectionsDir (SnapshotClient.decomposeData s))
      (SnapshotClient.loadFieldsDir (SnapshotClient.decomposeData s))
      (SnapshotClient.loadRelationsDir (SnapshotClient.decomposeData s))) = some s
  rw [loadCollectionsDir_decompose s h1 hnd, loadFieldsDir_decompose s h2 hnd,
    loadRelationsDir_decompose s h3 hnd]

theorem loadData_single_save (old : FS) (s : Snapshot) :
    SnapshotClient.loadData (SnapshotClient.saveData old false s).1 false = some s := rfl

/-- Claim C4, amended: split-file and single-file dumps of the same snapshot
reload to the identical in-memory structure provided the snapshot's
collections are strictly ascending by name and its fields and relations
strictly ascending by (collection, field); without that proviso the split
reload returns the entries in sorted file-name order with duplicate keys
collapsed, so order and multiplicity need not round-trip (see the
counterexample). -/
theorem c4_roundtrip_sorted (s : Snapshot) (old1 old2 : FS)
    (h1 : CollSorted s) (h2 : FieldSorted s) (h3 : RelSorted s) :
    SnapshotClient.loadData (SnapshotClient.saveData old1 true s).1 true =
      SnapshotClient.loadData (SnapshotClient.saveData old2 false s).1 false ∧
    SnapshotClient.loadData (SnapshotClient.saveData old1 true s).1 true = some s := by
  have hnd := decompose_keys_nodup s h1 h2 h3
  have hsplit : SnapshotClient.loadData (SnapshotClient.saveData old1 true s).1 true =
      some s := by
    rw [saveData_split_eq old1 s hnd]
    exact loadData_split_decompose s h1 h2 h3
  exact ⟨hsplit.trans (loadData_single_save old2 s).symm, hsplit⟩

/-- Counterexample to C4 as stated: a snapshot whose collections are not in
ascending name order reloads differently from the two dump modes — the split
reload visits the `collections` directory in file-name order, not snapshot
order. -/
theorem c4_split_single_differ :
    SnapshotClient.loadData
        (SnapshotClient.saveData [] true
          (Snapshot.mk 0 [Collection.mk 1 0, Collection.mk 0 0] [] [])).1 true ≠
      SnapshotClient.loadData
        (SnapshotClient.saveData [] false
          (Snapshot.mk 0 [Collection.mk 1 0, Collection.mk 0 0] [] [])).1 false := by
  decide

/-- Witness for the amended C4 at a concrete sorted snapshot. -/
theorem c4_roundtrip_sorted_witness :
    CollSorted (Snapshot.mk 5 [Collection.mk 0 1, Collection.mk 2 1]
      [Field.mk 0 0 3, Field.mk 0 1 3, Field.mk 2 0 3] [Relation.mk 2 0 4]) ∧
    FieldSorted (Snapshot.mk 5 [Collection.mk 0 1, Collection.mk 2 1]
      [Field.mk 0 0 3, Field.mk 0 1 3, Field.mk 2 0 3] [Relation.mk 2 0 4]) ∧
    RelSorted (Snapshot.mk 5 [Collection.mk 0 1, Collection.mk 2 1]
      [Field.mk 0 0 3, Field.mk 0 1 3, Field.mk 2 0 3] [Relation.mk 2 0 4]) ∧
    (SnapshotClient.loadData (SnapshotClient.saveData [] true
        (Snapshot.mk 5 [Collection.mk 0 1, Collection.mk 2 1]
          [Field.mk 0 0 3, Field.mk 0 1 3, Field.mk 2 0 3] [Relation.mk 2 0 4])).1 true =
      SnapshotClient.loadData (SnapshotClient.saveData [] false
        (Snapshot.mk 5 [Collection.mk 0 1, Collection.mk 2 1]
          [Field.mk 0 0 3, Field.mk 0 1 3, Field.mk 2 0 3] [Relation.mk 2 0 4])).1 false ∧
    SnapshotClient.loadData (SnapshotClient.saveData [] true
        (Snapshot.mk 5 [Collection.mk 0 1, Collection.mk 2 1]
          [Field.mk 0 0 3, Field.mk 0 1 3, Field.mk 2 0 3] [Relation.mk 2 0 4])).1 true =
      some (Snapshot.mk 5 [Collection.mk 0 1, Collection.mk 2 1]
        [Field.mk 0 0 3, Field.mk 0 1 3, Field.mk 2 0 3] [Relation.mk 2 0 4])) :=
  ⟨by decide, by decide, by decide,
    c4_roundtrip_sorted _ [] [] (by decide) (by decide) (by decide)⟩

end DSync
